import Mathlib

/-!
Verification development for the Design.pro studio application
(src/locallibrary/studio/{models,forms,views}.py).

The embedding models the studio app's data and request handlers as pure
Lean functions over an explicit database state (a list of Application
rows). Django-framework plumbing (routing, sessions, templates, the ORM
and SQL) is treated as an external collaborator: each view is a function
from the database and the request's data to a response together with the
database after the request. Timestamps are modelled as seconds since the
epoch (a `Nat`), so midnight of calendar day `d` is `d * 86400` and
`timedelta(days=1)` is `86400`.
-/

namespace Studio

/-- Python `str.strip()` / the `\s` regex class on the ASCII range:
space, tab, newline, carriage return, vertical tab, form feed. -/
def isPythonSpace (c : Char) : Bool :=
  c = ' ' || c = '\t' || c = '\n' || c = '\r' || c = '\x0b' || c = '\x0c'

/-- Python `str.strip()`: drop leading and trailing whitespace. -/
def pyStrip (s : String) : String :=
  String.mk (((s.data.dropWhile isPythonSpace).reverse.dropWhile isPythonSpace).reverse)

/-- Python `re.match(r"^[cls]+$", s)` for a character class `cls`:
the whole string is one or more class characters, where `$` also
matches just before a single trailing newline (CPython semantics). -/
def reFullMatch (cls : Char → Bool) (s : String) : Bool :=
  (!s.data.isEmpty && s.data.all cls) ||
  (s.data.getLast? == some '\n' && (!s.data.dropLast.isEmpty && s.data.dropLast.all cls))

/-- Character class of `r"[A-Za-z0-9\-]"` (forms.py, clean_username):
ASCII letters, ASCII digits, hyphen. -/
def isUsernameChar (c : Char) : Bool :=
  c.isAlpha || c.isDigit || c = '-'

/-- Character class of `r"[А-Яа-яёЁ\s\-]"` (forms.py, clean_first_name /
clean_last_name): Russian-alphabet Cyrillic letters (U+0410 to U+044F is
the contiguous union of А-Я and а-я), ё/Ё, whitespace, hyphen. -/
def isNameChar (c : Char) : Bool :=
  ('А' ≤ c && c ≤ 'я') || c = 'ё' || c = 'Ё' || isPythonSpace c || c = '-'

/-- Application.STATUS_CHOICES (models.py). -/
inductive Status where
  | new
  | in_progress
  | done
deriving DecidableEq, Repr

/-- An uploaded file as the form validators see it: a MIME content type
and a size in bytes. -/
structure Image where
  content_type : String
  size : Nat
deriving DecidableEq, Repr

/-- An authenticated user as the views consume it: primary key plus the
authorization flags read by `is_admin`. -/
structure UserRec where
  id : Nat
  is_active : Bool
  is_staff : Bool
  is_superuser : Bool
deriving DecidableEq, Repr

/-- One Application row (models.py, class Application). `userId` and
`category` are the foreign keys, `created` a timestamp in seconds. -/
structure App where
  id : Nat
  userId : Nat
  title : String
  category : Nat
  image : Option Image
  description : String
  status : Status
  created : Nat
  admin_comment : Option String
  design_image : Option Image
deriving DecidableEq, Repr

/-- views.py, `is_admin`. -/
def is_admin (u : UserRec) : Bool :=
  u.is_active && (u.is_staff || u.is_superuser)

/-- models.py, `Application.can_user_delete`. -/
def can_user_delete (a : App) : Bool :=
  a.status = Status.new

/-- forms.py: the allowed MIME types for both image fields. -/
def valid_types : List String :=
  ["image/jpeg", "image/png", "image/bmp"]

/-- forms.py, `ApplicationForm.clean_image`: required, MIME type in
`valid_types`, size at most 2 MiB. -/
def clean_image (img : Option Image) : Except String Image :=
  match img with
  | none => Except.error "image is required"
  | some i =>
    if !(valid_types.contains i.content_type) then
      Except.error "allowed formats: jpg, jpeg, png, bmp"
    else if i.size > 2 * 1024 * 1024 then
      Except.error "image size is at most 2 MiB"
    else Except.ok i

/-- forms.py, `ApplicationStatusDoneForm.clean_design_image`: same checks
as `clean_image`, on the finished-design upload. -/
def clean_design_image (img : Option Image) : Except String Image :=
  match img with
  | none => Except.error "a finished-design image must be uploaded"
  | some i =>
    if !(valid_types.contains i.content_type) then
      Except.error "allowed formats: jpg, jpeg, png, bmp"
    else if i.size > 2 * 1024 * 1024 then
      Except.error "image size is at most 2 MiB"
    else Except.ok i

/-- forms.py, `ApplicationStatusInProgressForm.clean_admin_comment`:
strip, then require non-empty. -/
def clean_admin_comment (c : String) : Except String String :=
  let v := pyStrip c
  if v = "" then Except.error "a comment is required" else Except.ok v

/-- Distinct error message for a malformed username
(forms.py, clean_username, first branch). -/
def usernameFormatMsg : String := "username: only latin letters, digits and hyphen"

/-- Distinct error message for a username collision
(forms.py, clean_username, second branch). -/
def usernameTakenMsg : String := "a user with this username already exists"

/-- forms.py, `RegistrationForm.clean_username`: format check with the
vulnerable `^...$` regex, then case-sensitive uniqueness against the
stored usernames. -/
def clean_username (stored : List String) (username : String) : Except String String :=
  if !(reFullMatch isUsernameChar username) then Except.error usernameFormatMsg
  else if stored.contains username then Except.error usernameTakenMsg
  else Except.ok username

/-- Field-specific error message for first_name. -/
def firstNameMsg : String := "first name: only cyrillic, space and hyphen"

/-- Field-specific error message for last_name. -/
def lastNameMsg : String := "last name: only cyrillic, space and hyphen"

/-- forms.py, `RegistrationForm.clean_first_name`: strip, then the whole
value must match `^[А-Яа-яёЁ\s\-]+$`. -/
def clean_first_name (v : String) : Except String String :=
  let s := pyStrip v
  if !(reFullMatch isNameChar s) then Except.error firstNameMsg else Except.ok s

/-- forms.py, `RegistrationForm.clean_last_name`: same policy as
`clean_first_name`, with its own error message. -/
def clean_last_name (v : String) : Except String String :=
  let s := pyStrip v
  if !(reFullMatch isNameChar s) then Except.error lastNameMsg else Except.ok s

/-- Client-supplied data for `ApplicationForm`. `clientStatus` stands for
any extra `status` key a client may smuggle into the POST body; the form's
`Meta.fields` excludes it, so no definition below reads it. -/
structure AppInput where
  title : String
  category : Nat
  image : Option Image
  description : String
  clientStatus : Option Status
deriving DecidableEq, Repr

/-- The cleaned data of a valid `ApplicationForm`
(forms.py, `ApplicationForm.Meta.fields`). -/
structure CleanedApp where
  title : String
  category : Nat
  image : Image
  description : String
deriving DecidableEq, Repr

/-- forms.py, `ApplicationForm` validation: the one custom validator is
`clean_image`; title/category/description pass through. -/
def applicationFormClean (inp : AppInput) : Except String CleanedApp :=
  match clean_image inp.image with
  | Except.error e => Except.error e
  | Except.ok img =>
    Except.ok { title := inp.title, category := inp.category,
                image := img, description := inp.description }

/-- The response of a view, as far as the claims observe it: a detail
render, a success redirect, a form re-render with validation errors, an
error redirect with a flash message (state conflict), 403, 404, or a
plain form/confirmation render on GET. -/
inductive Resp where
  | detail (a : App)
  | ok
  | formError (e : String)
  | stateError (msg : String)
  | forbidden
  | notFound
  | page
deriving DecidableEq, Repr

/-- Flash message of views.py line 125 (edit only while new). -/
def editOnlyNewMsg : String := "editing is only possible for applications in status new"

/-- Flash message of views.py line 146 (delete only while new). -/
def deleteOnlyNewMsg : String := "deletion is only possible for applications in status new"

/-- Flash message of views.py line 232 (take into work only from new). -/
def inProgressOnlyNewMsg : String := "only an application in status new can be taken into work"

/-- views.py, `application_detail`: 404 on missing pk, 403 unless the
actor is the owner or an admin, otherwise render the detail. Read-only. -/
def application_detail (db : List App) (actor : UserRec) (pk : Nat) :
    Resp × List App :=
  match db.find? (fun a => a.id == pk) with
  | none => (Resp.notFound, db)
  | some app =>
    if !(actor.id == app.userId || is_admin actor) then (Resp.forbidden, db)
    else (Resp.detail app, db)

/-- Apply a valid `ApplicationForm` to an existing row
(views.py, `edit_application`, `form.save()`): only the four
`Meta.fields` change. -/
def applyAppForm (a : App) (d : CleanedApp) : App :=
  { a with title := d.title, category := d.category,
           image := some d.image, description := d.description }

/-- The row persisted by `create_application`: form data plus
`app.user = request.user` and `app.status = Application.STATUS_NEW`
(views.py lines 96-99). -/
def newAppOf (actor : UserRec) (d : CleanedApp) (newId createdAt : Nat) : App :=
  { id := newId, userId := actor.id, title := d.title,
    category := d.category, image := some d.image,
    description := d.description, status := Status.new,
    created := createdAt, admin_comment := none, design_image := none }

/-- views.py, `create_application` (POST handling): validate the form; on
success append a row owned by the actor with status forced to `new`. -/
def create_application (db : List App) (actor : UserRec) (isPost : Bool)
    (inp : AppInput) (newId createdAt : Nat) : Resp × List App :=
  if isPost then
    match applicationFormClean inp with
    | Except.error e => (Resp.formError e, db)
    | Except.ok d => (Resp.ok, db ++ [newAppOf actor d newId createdAt])
  else (Resp.page, db)

/-- views.py, `edit_application`: the lookup is filtered by the
requesting user (`get_object_or_404(Application, pk=pk, user=request.user)`),
then the status gate, then the form. -/
def edit_application (db : List App) (actor : UserRec) (pk : Nat)
    (isPost : Bool) (inp : AppInput) : Resp × List App :=
  match db.find? (fun a => a.id == pk && a.userId == actor.id) with
  | none => (Resp.notFound, db)
  | some app =>
    if app.status ≠ Status.new then (Resp.stateError editOnlyNewMsg, db)
    else if isPost then
      match applicationFormClean inp with
      | Except.error e => (Resp.formError e, db)
      | Except.ok d =>
        (Resp.ok, db.map (fun a => if a.id == pk then applyAppForm a d else a))
    else (Resp.page, db)

/-- views.py, `delete_application`: owner-filtered lookup, then
`can_user_delete`, then the POST actually deletes. -/
def delete_application (db : List App) (actor : UserRec) (pk : Nat)
    (isPost : Bool) : Resp × List App :=
  match db.find? (fun a => a.id == pk && a.userId == actor.id) with
  | none => (Resp.notFound, db)
  | some app =>
    if !(can_user_delete app) then (Resp.stateError deleteOnlyNewMsg, db)
    else if isPost then (Resp.ok, db.filter (fun a => !(a.id == pk)))
    else (Resp.page, db)

/-- views.py, `change_status_in_progress`: admin gate
(`user_passes_test(is_admin)`), lookup by pk alone, the `status == new`
precondition, then the comment form; on success set the stripped comment
and move the status to in_progress. -/
def change_status_in_progress (db : List App) (actor : UserRec) (pk : Nat)
    (isPost : Bool) (comment : String) : Resp × List App :=
  if !(is_admin actor) then (Resp.forbidden, db)
  else match db.find? (fun a => a.id == pk) with
  | none => (Resp.notFound, db)
  | some app =>
    if app.status ≠ Status.new then (Resp.stateError inProgressOnlyNewMsg, db)
    else if isPost then
      match clean_admin_comment comment with
      | Except.error e => (Resp.formError e, db)
      | Except.ok c =>
        (Resp.ok,
         db.map (fun a =>
           if a.id == pk then
             { a with admin_comment := some c, status := Status.in_progress }
           else a))
    else (Resp.page, db)

/-- views.py, `change_status_done`: admin gate, lookup by pk — and no
check of the current status — then the design-image form; on success set
the image and move the status to done. -/
def change_status_done (db : List App) (actor : UserRec) (pk : Nat)
    (isPost : Bool) (design : Option Image) : Resp × List App :=
  if !(is_admin actor) then (Resp.forbidden, db)
  else match db.find? (fun a => a.id == pk) with
  | none => (Resp.notFound, db)
  | some _ =>
    if isPost then
      match clean_design_image design with
      | Except.error e => (Resp.formError e, db)
      | Except.ok img =>
        (Resp.ok,
         db.map (fun a =>
           if a.id == pk then
             { a with design_image := some img, status := Status.done }
           else a))
    else (Resp.page, db)

/-- Midnight of calendar day `d`, as a timestamp
(`make_aware(datetime.strptime(date, "%Y-%m-%d"))` in views.py). -/
def dateToDatetime (d : Nat) : Nat := d * 86400

/-- views.py, `report`: successive optional filters by status, category,
`created__gte` of the start date's midnight, and `created__lt` of the end
date's midnight plus one day. -/
def report_qs (db : List App) (statusQ : Option Status) (categoryQ : Option Nat)
    (startQ : Option Nat) (endQ : Option Nat) : List App :=
  let qs := db
  let qs := match statusQ with
    | some s => qs.filter (fun a => a.status == s)
    | none => qs
  let qs := match categoryQ with
    | some c => qs.filter (fun a => a.category == c)
    | none => qs
  let qs := match startQ with
    | some d => qs.filter (fun a => decide (dateToDatetime d ≤ a.created))
    | none => qs
  let qs := match endQ with
    | some d => qs.filter (fun a => decide (a.created < dateToDatetime d + 86400))
    | none => qs
  qs

/-- One request against the database: every handler of views.py that can
touch Application rows, with its request data. -/
inductive Op where
  | createOp (actor : UserRec) (isPost : Bool) (inp : AppInput) (newId createdAt : Nat)
  | editOp (actor : UserRec) (pk : Nat) (isPost : Bool) (inp : AppInput)
  | deleteOp (actor : UserRec) (pk : Nat) (isPost : Bool)
  | inProgressOp (actor : UserRec) (pk : Nat) (isPost : Bool) (comment : String)
  | doneOp (actor : UserRec) (pk : Nat) (isPost : Bool) (design : Option Image)
  | detailOp (actor : UserRec) (pk : Nat)
deriving Repr

/-- The database after one request. -/
def applyOp (db : List App) (op : Op) : List App :=
  match op with
  | Op.createOp a p i n t => (create_application db a p i n t).2
  | Op.editOp a pk p i => (edit_application db a pk p i).2
  | Op.deleteOp a pk p => (delete_application db a pk p).2
  | Op.inProgressOp a pk p c => (change_status_in_progress db a pk p c).2
  | Op.doneOp a pk p d => (change_status_done db a pk p d).2
  | Op.detailOp a pk => (application_detail db a pk).2

/-- Freshness side condition of a create request: the ORM hands out a
primary key not already present in the table. -/
def opFresh (db : List App) (op : Op) : Prop :=
  match op with
  | Op.createOp _ _ _ n _ => ∀ a ∈ db, a.id ≠ n
  | _ => True

/-- Primary keys are unique in the Application table. -/
def uniqueIds (db : List App) : Prop :=
  (db.map App.id).Nodup

/-- The transition relation the spec claims for the status field:
new to in_progress, or in_progress to done, and nothing else. -/
def claimedStep (s t : Status) : Prop :=
  (s = Status.new ∧ t = Status.in_progress) ∨
  (s = Status.in_progress ∧ t = Status.done)

/-- The transition relation the code actually guarantees: stay put,
new to in_progress, or a jump to done from anywhere. -/
def allowedStep (s t : Status) : Prop :=
  t = s ∨ (s = Status.new ∧ t = Status.in_progress) ∨ t = Status.done

/-- The frame of an Application row an edit may never touch: owner,
status, creation time, admin comment, design image. -/
def frameFields (a : App) : Nat × Status × Nat × Option String × Option Image :=
  (a.userId, a.status, a.created, a.admin_comment, a.design_image)

section Fixtures

/-- Concrete owner, pk 5. -/
def wOwner : UserRec := { id := 5, is_active := true, is_staff := false, is_superuser := false }

/-- Concrete staff administrator. -/
def wAdmin : UserRec := { id := 9, is_active := true, is_staff := true, is_superuser := false }

/-- Concrete unrelated authenticated user. -/
def wOther : UserRec := { id := 7, is_active := true, is_staff := false, is_superuser := false }

/-- A 1 KiB PNG upload. -/
def wPng : Image := { content_type := "image/png", size := 1024 }

/-- A GIF upload: its MIME type is outside the allowed set. -/
def wGif : Image := { content_type := "image/gif", size := 10 }

/-- An application of owner `wOwner` in status new, pk 1. -/
def wAppNew : App :=
  { id := 1, userId := 5, title := "kitchen", category := 1, image := some wPng,
    description := "redesign", status := Status.new, created := 100,
    admin_comment := none, design_image := none }

/-- An application of owner `wOwner` in status done, pk 2. -/
def wAppDone : App :=
  { id := 2, userId := 5, title := "hall", category := 1, image := some wPng,
    description := "", status := Status.done, created := 200,
    admin_comment := some "ok", design_image := some wPng }

/-- Valid form input; its smuggled `clientStatus` key asks for done. -/
def wInp : AppInput :=
  { title := "kitchen", category := 1, image := some wPng,
    description := "redesign", clientStatus := some Status.done }

/-- Form input carrying the GIF upload. -/
def wBadInp : AppInput :=
  { title := "kitchen", category := 1, image := some wGif,
    description := "", clientStatus := none }

end Fixtures

/-- C7: for every Application and authenticated actor, the detail view
renders the Application's detail exactly when the actor is the owner or
an administrator (active with is_staff or is_superuser); every other
actor receives a forbidden result, and the database is never mutated by
viewing. -/
theorem claim_C7 (db : List App) (actor : UserRec) (pk : Nat) (app : App)
    (hfind : db.find? (fun a => a.id == pk) = some app) :
    ((application_detail db actor pk).1 = Resp.detail app ↔
      (actor.id = app.userId ∨ is_admin actor = true)) ∧
    ((actor.id ≠ app.userId ∧ is_admin actor = false) →
      (application_detail db actor pk).1 = Resp.forbidden) ∧
    (application_detail db actor pk).2 = db := by
  cases hcond : (actor.id == app.userId || is_admin actor) with
  | true =>
    have hres : application_detail db actor pk = (Resp.detail app, db) := by
      unfold application_detail
      rw [hfind]
      show (if (!(actor.id == app.userId || is_admin actor)) = true
            then (Resp.forbidden, db) else (Resp.detail app, db)) = _
      rw [hcond]
      rfl
    have hor : actor.id = app.userId ∨ is_admin actor = true := by
      simpa using hcond
    rw [hres]
    refine ⟨iff_of_true rfl hor, ?_, rfl⟩
    intro hc
    rcases hor with h | h
    · exact absurd h hc.1
    · rw [hc.2] at h; exact absurd h (by simp)
  | false =>
    have hres : application_detail db actor pk = (Resp.forbidden, db) := by
      unfold application_detail
      rw [hfind]
      show (if (!(actor.id == app.userId || is_admin actor)) = true
            then (Resp.forbidden, db) else (Resp.detail app, db)) = _
      rw [hcond]
      rfl
    have hn : ¬ (actor.id = app.userId ∨ is_admin actor = true) := by
      intro h
      rcases h with h | h <;> simp [h] at hcond
    rw [hres]
    refine ⟨⟨fun heq => absurd heq (by simp), fun h => absurd h hn⟩, fun _ => rfl, rfl⟩

/-- Witness for C7 at a concrete database: the owner sees the detail. -/
theorem claim_C7_witness :
    (application_detail [wAppNew] wOwner 1).1 = Resp.detail wAppNew :=
  (claim_C7 [wAppNew] wOwner 1 wAppNew (by decide)).1.mpr (Or.inl (by decide))

/-- C5: for every Application whose status is not new, an edit attempt or
a delete attempt by the owner is rejected with a state-conflict error
(redirect with flash message) and the database is unchanged. -/
theorem claim_C5 (db : List App) (actor : UserRec) (pk : Nat) (app : App)
    (isPost : Bool) (inp : AppInput)
    (hfind : db.find? (fun a => a.id == pk && a.userId == actor.id) = some app)
    (hst : app.status ≠ Status.new) :
    (edit_application db actor pk isPost inp).1 = Resp.stateError editOnlyNewMsg ∧
    (edit_application db actor pk isPost inp).2 = db ∧
    (delete_application db actor pk isPost).1 = Resp.stateError deleteOnlyNewMsg ∧
    (delete_application db actor pk isPost).2 = db := by
  unfold edit_application delete_application
  rw [hfind]
  simp [can_user_delete, hst]

/-- Witness for C5: the owner's edit and delete of a done application are
both rejected and the row survives. -/
theorem claim_C5_witness :
    (edit_application [wAppDone] wOwner 2 true wInp).1 = Resp.stateError editOnlyNewMsg ∧
    (edit_application [wAppDone] wOwner 2 true wInp).2 = [wAppDone] ∧
    (delete_application [wAppDone] wOwner 2 true).1 = Resp.stateError deleteOnlyNewMsg ∧
    (delete_application [wAppDone] wOwner 2 true).2 = [wAppDone] :=
  claim_C5 [wAppDone] wOwner 2 wAppDone true wInp (by decide) (by decide)

/-- C10: for every Application and every authenticated actor who does not
own it — administrators included — the owner-facing edit and delete paths
answer not-found (the lookup is filtered to the requesting user), never
forbidden, and the database is unchanged. -/
theorem claim_C10 (db : List App) (actor : UserRec) (pk : Nat) (app : App)
    (isPost : Bool) (inp : AppInput)
    (_hfind : db.find? (fun a => a.id == pk) = some app)
    (hown : ∀ a ∈ db, a.id = pk → a.userId ≠ actor.id) :
    (edit_application db actor pk isPost inp).1 = Resp.notFound ∧
    (edit_application db actor pk isPost inp).2 = db ∧
    (delete_application db actor pk isPost).1 = Resp.notFound ∧
    (delete_application db actor pk isPost).2 = db := by
  have hnone : db.find? (fun a => a.id == pk && a.userId == actor.id) = none := by
    rw [List.find?_eq_none]
    intro a ha
    simp only [Bool.and_eq_true, beq_iff_eq, not_and]
    exact fun h1 h2 => hown a ha h1 h2
  unfold edit_application delete_application
  rw [hnone]
  exact ⟨rfl, rfl, rfl, rfl⟩

/-- Witness for C10: an administrator who is not the owner gets 404 from
the owner-facing edit path. -/
theorem claim_C10_witness :
    (edit_application [wAppNew] wAdmin 1 true wInp).1 = Resp.notFound :=
  (claim_C10 [wAppNew] wAdmin 1 wAppNew true wInp (by decide) (by decide)).1

/-- C9: for every report query with both date parameters, the result set
contains exactly the rows (among those passing the status and category
filters) whose creation time lies in the half-open window from the start
date's midnight up to, but excluding, the midnight after the end date —
so the end date is inclusive of its whole day. -/
theorem claim_C9 (db : List App) (statusQ : Option Status) (categoryQ : Option Nat)
    (s e : Nat) (a : App) :
    a ∈ report_qs db statusQ categoryQ (some s) (some e) ↔
      (a ∈ report_qs db statusQ categoryQ none none ∧
       dateToDatetime s ≤ a.created ∧ a.created < dateToDatetime e + 86400) := by
  unfold report_qs
  simp only [List.mem_filter, decide_eq_true_eq]
  tauto

/-- Helper: a wrong MIME type makes both image validators fail. -/
theorem clean_image_bad_type (i : Image)
    (h : valid_types.contains i.content_type = false) :
    clean_image (some i) = Except.error "allowed formats: jpg, jpeg, png, bmp" ∧
    clean_design_image (some i) = Except.error "allowed formats: jpg, jpeg, png, bmp" := by
  have hm : i.content_type ∉ valid_types := by simpa using h
  constructor <;> simp [clean_image, clean_design_image, hm]

/-- Helper: an oversized image of an allowed MIME type makes both image
validators fail on the size check. -/
theorem clean_image_bad_size (i : Image)
    (h : valid_types.contains i.content_type = true)
    (hlt : 2 * 1024 * 1024 < i.size) :
    clean_image (some i) = Except.error "image size is at most 2 MiB" ∧
    clean_design_image (some i) = Except.error "image size is at most 2 MiB" := by
  have hm : i.content_type ∈ valid_types := by simpa using h
  constructor <;> simp [clean_image, clean_design_image, hm, hlt]

/-- Helper: a bad image makes both image validators fail with some error. -/
theorem clean_image_bad (i : Image)
    (hbad : 2 * 1024 * 1024 < i.size ∨ valid_types.contains i.content_type = false) :
    ∃ e, clean_image (some i) = Except.error e ∧
         clean_design_image (some i) = Except.error e := by
  rcases hbad with hs | ht
  · by_cases hct : valid_types.contains i.content_type = true
    · exact ⟨_, clean_image_bad_size i hct hs⟩
    · exact ⟨_, clean_image_bad_type i (Bool.eq_false_iff.mpr hct)⟩
  · exact ⟨_, clean_image_bad_type i ht⟩

/-- C3: for every uploaded image over 2 MiB or with a MIME type outside
jpeg/png/bmp, application creation and the done transition answer a
validation error and leave the database unchanged; an image of exactly
2 MiB with an allowed MIME type passes the size and type checks of both
validators. -/
theorem claim_C3 (img : Image) (db : List App) (actor : UserRec) (inp : AppInput)
    (nid t pk : Nat)
    (hbad : 2 * 1024 * 1024 < img.size ∨ valid_types.contains img.content_type = false)
    (himg : inp.image = some img) :
    ((∃ e, (create_application db actor true inp nid t).1 = Resp.formError e) ∧
      (create_application db actor true inp nid t).2 = db) ∧
    ((is_admin actor = true → (∃ app, db.find? (fun a => a.id == pk) = some app) →
        ∃ e, (change_status_done db actor pk true (some img)).1 = Resp.formError e) ∧
      (change_status_done db actor pk true (some img)).2 = db) ∧
    (∀ im : Image, im.size = 2 * 1024 * 1024 →
      valid_types.contains im.content_type = true →
      clean_image (some im) = Except.ok im ∧ clean_design_image (some im) = Except.ok im) := by
  obtain ⟨e, hce, hcde⟩ := clean_image_bad img hbad
  have hfc : applicationFormClean inp = Except.error e := by
    unfold applicationFormClean
    rw [himg]
    simp only [hce]
  refine ⟨⟨⟨e, ?_⟩, ?_⟩, ⟨?_, ?_⟩, ?_⟩
  · simp [create_application, hfc]
  · simp [create_application, hfc]
  · rintro hA ⟨app, hf⟩
    exact ⟨e, by simp [change_status_done, hA, hf, hcde]⟩
  · unfold change_status_done
    cases hA : is_admin actor with
    | false => simp
    | true =>
      cases hf : db.find? (fun a => a.id == pk) with
      | none => simp [hf]
      | some a => simp [hf, hcde]
  · intro im h2 hty2
    have hm : im.content_type ∈ valid_types := by simpa using hty2
    constructor <;> simp [clean_image, clean_design_image, hm, h2]

/-- Witness for C3: the GIF upload blocks creation at a concrete input,
and a 2 MiB PNG passes both validators' checks. -/
theorem claim_C3_witness :
    ((∃ e, (create_application [wAppNew] wOwner true wBadInp 3 0).1 = Resp.formError e) ∧
      (create_application [wAppNew] wOwner true wBadInp 3 0).2 = [wAppNew]) ∧
    (clean_image (some { content_type := "image/png", size := 2 * 1024 * 1024 }) =
      Except.ok { content_type := "image/png", size := 2 * 1024 * 1024 }) := by
  have h := claim_C3 wGif [wAppNew] wOwner wBadInp 3 0 1 (Or.inr (by decide)) (by decide)
  exact ⟨h.1, (h.2.2 _ (by decide) (by decide)).1⟩

/-- C6: through the create and edit paths only title, category, image
and description are settable from client input: creation appends exactly
the row built from the cleaned form data with the owner set to the actor
and the status forced to new — whatever status the client smuggled in —
and the edit path never changes owner, status, creation time, admin
comment or design image of any row. -/
theorem claim_C6 (db : List App) (actor : UserRec) (inp : AppInput)
    (nid t pk : Nat) (d : CleanedApp)
    (hclean : applicationFormClean inp = Except.ok d) :
    (create_application db actor true inp nid t).2 = db ++ [newAppOf actor d nid t] ∧
    (newAppOf actor d nid t).userId = actor.id ∧
    (newAppOf actor d nid t).status = Status.new ∧
    (∀ isPost, (edit_application db actor pk isPost inp).2.map frameFields =
      db.map frameFields) := by
  refine ⟨by simp [create_application, hclean], rfl, rfl, ?_⟩
  intro isPost
  unfold edit_application
  cases hf : db.find? (fun a => a.id == pk && a.userId == actor.id) with
  | none => simp
  | some app =>
    by_cases hst : app.status ≠ Status.new
    · simp [hst]
    · cases isPost with
      | false => simp [hst]
      | true =>
        simp only [hst, if_false, if_true, hclean]
        rw [List.map_map]
        apply List.map_congr_left
        intro a _
        by_cases h : (a.id == pk) = true <;>
          simp [Function.comp, h, applyAppForm, frameFields]

/-- Witness for C6: concrete creation appends the forced-new row even
though the client input asked for status done. -/
theorem claim_C6_witness :
    (create_application [] wOwner true wInp 1 50).2 =
      [] ++ [newAppOf wOwner
        { title := "kitchen", category := 1, image := wPng, description := "redesign" } 1 50] :=
  (claim_C6 [] wOwner wInp 1 50 1 _ rfl).1

/-- Helper: updating the rows whose pk matches does not change which row
a pk lookup finds — it finds the updated image of the same row. -/
theorem find?_map_of_id_eq (db : List App) (pk : Nat) (f : App → App)
    (hf : ∀ a, (f a).id = a.id) (app : App)
    (h : db.find? (fun a => a.id == pk) = some app) :
    (db.map (fun a => if a.id == pk then f a else a)).find?
      (fun a => a.id == pk) = some (f app) := by
  induction db with
  | nil => simp at h
  | cons b l ih =>
    cases hb : (b.id == pk) with
    | true =>
      have e1 := @List.find?_cons_of_pos App (fun a => a.id == pk) b l hb
      rw [e1] at h
      injection h with h
      subst h
      have hb2 : ((fun a : App => a.id == pk)
          (if (b.id == pk) = true then f b else b)) = true := by
        rw [if_pos hb]
        show ((f b).id == pk) = true
        rw [hf b]
        exact hb
      have e2 := @List.find?_cons_of_pos App (fun a => a.id == pk)
        (if (b.id == pk) = true then f b else b)
        (l.map fun a => if (a.id == pk) = true then f a else a) hb2
      rw [List.map_cons, e2, if_pos hb]
    | false =>
      have hb1 : ¬ ((fun a : App => a.id == pk) b = true) := by simp [hb]
      have e1 := @List.find?_cons_of_neg App (fun a => a.id == pk) b l hb1
      rw [e1] at h
      have hb2 : ¬ ((fun a : App => a.id == pk)
          (if (b.id == pk) = true then f b else b) = true) := by
        rw [if_neg (by simp [hb])]
        simp [hb]
      have e2 := @List.find?_cons_of_neg App (fun a => a.id == pk)
        (if (b.id == pk) = true then f b else b)
        (l.map fun a => if (a.id == pk) = true then f a else a) hb2
      rw [List.map_cons, e2]
      exact ih h

/-- C2: under an administrator POST, the in_progress transition succeeds
exactly when the Application is in status new and the submitted comment
is non-empty after trimming; on success it stores the trimmed comment and
sets the status to in_progress; any failure leaves the database
untouched; and a second submission right after a success is rejected with
the state-conflict message and changes nothing. -/
theorem claim_C2 (db : List App) (actor : UserRec) (pk : Nat) (app : App)
    (comment : String)
    (hadmin : is_admin actor = true)
    (hfind : db.find? (fun a => a.id == pk) = some app) :
    ((change_status_in_progress db actor pk true comment).1 = Resp.ok ↔
      (app.status = Status.new ∧ pyStrip comment ≠ "")) ∧
    ((change_status_in_progress db actor pk true comment).1 ≠ Resp.ok →
      (change_status_in_progress db actor pk true comment).2 = db) ∧
    (app.status = Status.new → pyStrip comment ≠ "" →
      (change_status_in_progress db actor pk true comment).2 =
        db.map (fun a => if a.id == pk then
            { a with admin_comment := some (pyStrip comment),
                     status := Status.in_progress }
          else a) ∧
      (∀ c2 p2,
        (change_status_in_progress
          (change_status_in_progress db actor pk true comment).2 actor pk p2 c2).1 =
            Resp.stateError inProgressOnlyNewMsg ∧
        (change_status_in_progress
          (change_status_in_progress db actor pk true comment).2 actor pk p2 c2).2 =
            (change_status_in_progress db actor pk true comment).2)) := by
  by_cases hst : app.status = Status.new
  · by_cases hcm : pyStrip comment = ""
    · have hclean : clean_admin_comment comment = Except.error "a comment is required" := by
        simp [clean_admin_comment, hcm]
      have hres : change_status_in_progress db actor pk true comment =
          (Resp.formError "a comment is required", db) := by
        simp [change_status_in_progress, hadmin, hfind, hst, hclean]
      rw [hres]
      refine ⟨⟨fun h => absurd h (by simp), fun h => absurd h.2 (by simp [hcm])⟩,
        fun _ => rfl, fun _ h => absurd hcm h⟩
    · have hclean : clean_admin_comment comment = Except.ok (pyStrip comment) := by
        simp [clean_admin_comment, hcm]
      have hres : change_status_in_progress db actor pk true comment =
          (Resp.ok,
           db.map (fun a => if a.id == pk then
               { a with admin_comment := some (pyStrip comment),
                        status := Status.in_progress }
             else a)) := by
        simp [change_status_in_progress, hadmin, hfind, hst, hclean]
      have hres1 : (change_status_in_progress db actor pk true comment).1 = Resp.ok := by
        rw [hres]
      have hresdb : (change_status_in_progress db actor pk true comment).2 =
          db.map (fun a => if a.id == pk then
              { a with admin_comment := some (pyStrip comment),
                       status := Status.in_progress }
            else a) := by
        rw [hres]
      have hfind2 : (db.map (fun a => if a.id == pk then
              { a with admin_comment := some (pyStrip comment),
                       status := Status.in_progress }
            else a)).find? (fun a => a.id == pk) =
          some { app with admin_comment := some (pyStrip comment),
                          status := Status.in_progress } :=
        find?_map_of_id_eq db pk
          (fun a => { a with admin_comment := some (pyStrip comment),
                             status := Status.in_progress })
          (fun _ => rfl) app hfind
      have hres2 : ∀ (c2 : String) (p2 : Bool),
          change_status_in_progress
            (db.map (fun a => if a.id == pk then
                { a with admin_comment := some (pyStrip comment),
                         status := Status.in_progress }
              else a)) actor pk p2 c2 =
          (Resp.stateError inProgressOnlyNewMsg,
           db.map (fun a => if a.id == pk then
               { a with admin_comment := some (pyStrip comment),
                        status := Status.in_progress }
             else a)) := by
        intro c2 p2
        unfold change_status_in_progress
        rw [hadmin, hfind2]
        rfl
      refine ⟨iff_of_true hres1 ⟨hst, hcm⟩, fun h => absurd hres1 h, fun _ _ => ⟨hresdb, ?_⟩⟩
      intro c2 p2
      rw [hresdb, hres2]
      exact ⟨rfl, rfl⟩
  · have hres : change_status_in_progress db actor pk true comment =
        (Resp.stateError inProgressOnlyNewMsg, db) := by
      simp [change_status_in_progress, hadmin, hfind, hst]
    rw [hres]
    exact ⟨⟨fun h => absurd h (by simp), fun h => absurd h.1 hst⟩,
      fun _ => rfl, fun h => absurd h hst⟩

/-- Witness for C2 on a concrete database: taking the new application
into work with comment " ok " succeeds. -/
theorem claim_C2_witness :
    (change_status_in_progress [wAppNew] wAdmin 1 true " ok ").1 = Resp.ok :=
  (claim_C2 [wAppNew] wAdmin 1 wAppNew " ok " (by decide) (by decide)).1.mpr
    ⟨by decide, by decide⟩

/-- Helper: the first element surviving `dropWhile p` does not satisfy `p`. -/
theorem head?_dropWhile_false (p : Char → Bool) (l : List Char) (c : Char)
    (h : (l.dropWhile p).head? = some c) : p c = false := by
  induction l with
  | nil => simp [List.dropWhile] at h
  | cons b t ih =>
    by_cases hb : p b = true
    · rw [List.dropWhile_cons_of_pos hb] at h
      exact ih h
    · rw [List.dropWhile_cons_of_neg hb, List.head?_cons] at h
      injection h with h
      subst h
      exact Bool.eq_false_iff.mpr hb

/-- Helper: the character list behind a stripped string. -/
theorem pyStrip_data (v : String) :
    (pyStrip v).data =
      ((v.data.dropWhile isPythonSpace).reverse.dropWhile isPythonSpace).reverse := rfl

/-- Helper: a stripped string never ends in a whitespace character. -/
theorem pyStrip_last_not_space (v : String) (c : Char)
    (h : (pyStrip v).data.getLast? = some c) : isPythonSpace c = false := by
  rw [pyStrip_data, List.getLast?_reverse] at h
  exact head?_dropWhile_false _ _ _ h

/-- Helper: on a stripped string the Python regex `^[cls]+$` (whose `$`
also accepts one trailing newline) degenerates to: non-empty and all
characters in the class — the stripped string cannot end in a newline. -/
theorem reFullMatch_pyStrip_iff (v : String) :
    reFullMatch isNameChar (pyStrip v) = true ↔
      (pyStrip v ≠ "" ∧ ∀ c ∈ (pyStrip v).data, isNameChar c = true) := by
  unfold reFullMatch
  simp only [Bool.or_eq_true, Bool.and_eq_true]
  constructor
  · intro h
    rcases h with ⟨hne, hall⟩ | ⟨hlast, _⟩
    · refine ⟨?_, List.all_eq_true.mp hall⟩
      intro he
      rw [he] at hne
      simp at hne
    · exfalso
      have hl : (pyStrip v).data.getLast? = some '\n' := by
        simpa using hlast
      have := pyStrip_last_not_space v '\n' hl
      simp [isPythonSpace] at this
  · rintro ⟨hne, hall⟩
    left
    constructor
    · have hd : (pyStrip v).data ≠ [] := by
        intro hd
        exact hne (String.ext_iff.mpr hd)
      simpa using hd
    · exact List.all_eq_true.mpr hall

/-- C8: a first or last name submitted at registration is accepted (with
the stripped value) exactly when the trimmed value is non-empty and every
one of its characters is a Russian-alphabet Cyrillic letter, whitespace
or hyphen; any other value — names with Cyrillic letters outside that
range included — is rejected with the field's own error message. -/
theorem claim_C8 (v : String) :
    ((clean_first_name v = Except.ok (pyStrip v)) ↔
      (pyStrip v ≠ "" ∧ ∀ c ∈ (pyStrip v).data, isNameChar c = true)) ∧
    (¬ (pyStrip v ≠ "" ∧ ∀ c ∈ (pyStrip v).data, isNameChar c = true) →
      clean_first_name v = Except.error firstNameMsg) ∧
    ((clean_last_name v = Except.ok (pyStrip v)) ↔
      (pyStrip v ≠ "" ∧ ∀ c ∈ (pyStrip v).data, isNameChar c = true)) ∧
    (¬ (pyStrip v ≠ "" ∧ ∀ c ∈ (pyStrip v).data, isNameChar c = true) →
      clean_last_name v = Except.error lastNameMsg) := by
  by_cases h : reFullMatch isNameChar (pyStrip v) = true
  · have hm := (reFullMatch_pyStrip_iff v).mp h
    have e1 : clean_first_name v = Except.ok (pyStrip v) := by
      simp [clean_first_name, h]
    have e2 : clean_last_name v = Except.ok (pyStrip v) := by
      simp [clean_last_name, h]
    exact ⟨iff_of_true e1 hm, fun hc => absurd hm hc,
           iff_of_true e2 hm, fun hc => absurd hm hc⟩
  · have hm : ¬ (pyStrip v ≠ "" ∧ ∀ c ∈ (pyStrip v).data, isNameChar c = true) :=
      fun hc => h ((reFullMatch_pyStrip_iff v).mpr hc)
    have hb : reFullMatch isNameChar (pyStrip v) = false := Bool.eq_false_iff.mpr h
    have e1 : clean_first_name v = Except.error firstNameMsg := by
      simp [clean_first_name, hb]
    have e2 : clean_last_name v = Except.error lastNameMsg := by
      simp [clean_last_name, hb]
    exact ⟨iff_of_false (by rw [e1]; simp) hm, fun _ => e1,
           iff_of_false (by rw [e2]; simp) hm, fun _ => e2⟩

/-- Witness for C8: the Russian name " Иван " is accepted stripped, and
"Іван" — whose first letter is Ukrainian Cyrillic, outside А..я/ё/Ё — is
rejected with the first_name error. -/
theorem claim_C8_witness :
    clean_first_name " Иван " = Except.ok (pyStrip " Иван ") ∧
    clean_first_name "Іван" = Except.error firstNameMsg :=
  ⟨(claim_C8 " Иван ").1.mpr ⟨by decide, by decide⟩,
   (claim_C8 "Іван").2.1 (by decide)⟩

/-- Counterexample to C4: the username "ab\n" contains a character
outside ASCII letters, digits and hyphen — its trailing newline — yet
registration's format check passes it: CPython's `$` in
`re.match(r"^[A-Za-z0-9\-]+$", ...)` also matches just before a final
newline, so `clean_username` accepts the string unchanged. -/
theorem claim_C4_counterexample :
    ('\n' ∈ "ab\n".data ∧ isUsernameChar '\n' = false) ∧
    clean_username [] "ab\n" = Except.ok "ab\n" := by
  exact ⟨by decide, rfl⟩

/-- C4 as amended: every username containing a character outside
ASCII letters, digits and hyphen fails with the format error — except
the strings made of one or more allowed characters followed by a single
trailing newline, which the Python `$` lets through the format check. -/
theorem claim_C4_amended (stored : List String) (u : String)
    (hbad : ∃ c ∈ u.data, isUsernameChar c = false)
    (hexc : ¬ (u.data.getLast? = some '\n' ∧ u.data.dropLast ≠ [] ∧
               ∀ c ∈ u.data.dropLast, isUsernameChar c = true)) :
    clean_username stored u = Except.error usernameFormatMsg := by
  have hfm : reFullMatch isUsernameChar u = false := by
    apply Bool.eq_false_iff.mpr
    intro hT
    unfold reFullMatch at hT
    simp only [Bool.or_eq_true, Bool.and_eq_true] at hT
    rcases hT with ⟨_, hall⟩ | ⟨hlast, hne2, hall2⟩
    · obtain ⟨c, hc, hcf⟩ := hbad
      have hct := List.all_eq_true.mp hall c hc
      rw [hcf] at hct
      exact absurd hct (by simp)
    · exact hexc ⟨by simpa using hlast, by simpa using hne2,
        List.all_eq_true.mp hall2⟩
  simp [clean_username, hfm]

/-- Witness for the amended C4: "a b" contains a space and is not of the
trailing-newline shape, so it is rejected with the format error. -/
theorem claim_C4_amended_witness :
    clean_username [] "a b" = Except.error usernameFormatMsg :=
  claim_C4_amended [] "a b" ⟨' ', by decide, by decide⟩ (by decide)

/-- Helper: rows of a table with unique pks are equal when their pks are. -/
theorem uniqueIds_eq_of_id {db : List App} (h : uniqueIds db) {a b : App}
    (ha : a ∈ db) (hb : b ∈ db) (hid : a.id = b.id) : a = b :=
  List.inj_on_of_nodup_map h ha hb hid

/-- Helper: a pk-guarded row update preserves every row's pk. -/
theorem upd_if_id (pk : Nat) (f : App → App) (hf : ∀ a, (f a).id = a.id)
    (a : App) : (if (a.id == pk) = true then f a else a).id = a.id := by
  by_cases h : (a.id == pk) = true
  · rw [if_pos h]
    exact hf a
  · rw [if_neg h]

/-- Helper: when the database is unchanged, every per-row step is the
identity — an allowed step. -/
theorem step_of_same (db : List App) (huniq : uniqueIds db) :
    ∀ a ∈ db, ∀ b ∈ db, b.id = a.id → allowedStep a.status b.status := by
  intro a ha b hb hid
  exact Or.inl (congrArg App.status (uniqueIds_eq_of_id huniq hb ha hid))

/-- Helper: a row of the old database always has a matching pk in it. -/
theorem new_of_no_id (db : List App) :
    ∀ b ∈ db, (∀ a ∈ db, a.id ≠ b.id) → b.status = Status.new :=
  fun b hb h => absurd rfl (h b hb)

/-- Helper: a per-row allowed step through a pk-preserving map is an
allowed step for the matching row of the old database. -/
theorem step_of_map (db : List App) (huniq : uniqueIds db) (g : App → App)
    (hgid : ∀ a, (g a).id = a.id)
    (hgstep : ∀ a ∈ db, allowedStep a.status (g a).status) :
    ∀ a ∈ db, ∀ b ∈ db.map g, b.id = a.id → allowedStep a.status b.status := by
  intro a ha b hb hid
  obtain ⟨x, hx, rfl⟩ := List.mem_map.mp hb
  have hxa : x = a := uniqueIds_eq_of_id huniq hx ha (by rw [← hgid x]; exact hid)
  subst hxa
  exact hgstep x hx

/-- Helper: a pk-preserving map introduces no row with a fresh pk. -/
theorem no_new_of_map (db : List App) (g : App → App)
    (hgid : ∀ a, (g a).id = a.id) :
    ∀ b ∈ db.map g, (∀ a ∈ db, a.id ≠ b.id) → b.status = Status.new := by
  intro b hb hno
  obtain ⟨x, hx, rfl⟩ := List.mem_map.mp hb
  exact absurd (hgid x).symm (hno x hx)

/-- Helper: the database after a create request is unchanged or has the
fresh forced-new row appended. -/
theorem create_db_shape (db : List App) (actor : UserRec) (p : Bool)
    (inp : AppInput) (nid t : Nat) :
    (create_application db actor p inp nid t).2 = db ∨
    ∃ d, (create_application db actor p inp nid t).2 =
      db ++ [newAppOf actor d nid t] := by
  cases p with
  | false => left; rfl
  | true =>
    cases hc : applicationFormClean inp with
    | error e => left; simp [create_application, hc]
    | ok d => right; exact ⟨d, by simp [create_application, hc]⟩

/-- Helper: the database after an edit request is unchanged or rewritten
by the pk-guarded form application. -/
theorem edit_db_shape (db : List App) (actor : UserRec) (pk : Nat)
    (p : Bool) (inp : AppInput) :
    (edit_application db actor pk p inp).2 = db ∨
    ∃ d, (edit_application db actor pk p inp).2 =
      db.map (fun a => if a.id == pk then applyAppForm a d else a) := by
  cases hf : db.find? (fun a => a.id == pk && a.userId == actor.id) with
  | none => left; simp [edit_application, hf]
  | some app =>
    by_cases hst : app.status ≠ Status.new
    · left; simp [edit_application, hf, hst]
    · have hst2 : app.status = Status.new := not_not.mp hst
      cases p with
      | false => left; simp [edit_application, hf, hst2]
      | true =>
        cases hc : applicationFormClean inp with
        | error e => left; simp [edit_application, hf, hst2, hc]
        | ok d => right; exact ⟨d, by simp [edit_application, hf, hst2, hc]⟩

/-- Helper: the database after a delete request is unchanged or has the
pk's rows removed. -/
theorem delete_db_shape (db : List App) (actor : UserRec) (pk : Nat) (p : Bool) :
    (delete_application db actor pk p).2 = db ∨
    (delete_application db actor pk p).2 = db.filter (fun a => !(a.id == pk)) := by
  cases hf : db.find? (fun a => a.id == pk && a.userId == actor.id) with
  | none => left; simp [delete_application, hf]
  | some app =>
    by_cases hd : can_user_delete app = true
    · cases p with
      | false => left; simp [delete_application, hf, hd]
      | true => right; simp [delete_application, hf, hd]
    · left
      have hd2 : can_user_delete app = false := Bool.eq_false_iff.mpr hd
      simp [delete_application, hf, hd2]

/-- Helper: the database after an in_progress request is unchanged, or —
only when the looked-up row was in status new — rewritten to carry the
comment and the in_progress status on the pk's rows. -/
theorem inprog_db_shape (db : List App) (actor : UserRec) (pk : Nat)
    (p : Bool) (c : String) :
    (change_status_in_progress db actor pk p c).2 = db ∨
    ∃ app v, db.find? (fun a => a.id == pk) = some app ∧
      app.status = Status.new ∧
      (change_status_in_progress db actor pk p c).2 =
        db.map (fun a => if a.id == pk then
          { a with admin_comment := some v, status := Status.in_progress }
        else a) := by
  cases hA : is_admin actor with
  | false => left; simp [change_status_in_progress, hA]
  | true =>
    cases hf : db.find? (fun a => a.id == pk) with
    | none => left; simp [change_status_in_progress, hA, hf]
    | some app =>
      by_cases hst : app.status ≠ Status.new
      · left; simp [change_status_in_progress, hA, hf, hst]
      · have hst2 : app.status = Status.new := not_not.mp hst
        cases p with
        | false => left; simp [change_status_in_progress, hA, hf, hst2]
        | true =>
          cases hc : clean_admin_comment c with
          | error e => left; simp [change_status_in_progress, hA, hf, hst2, hc]
          | ok v =>
            right
            exact ⟨app, v, rfl, hst2,
              by simp [change_status_in_progress, hA, hf, hst2, hc]⟩

/-- Helper: the database after a done request is unchanged or rewritten
to carry the design image and the done status on the pk's rows — with no
condition at all on the previous status. -/
theorem done_db_shape (db : List App) (actor : UserRec) (pk : Nat)
    (p : Bool) (design : Option Image) :
    (change_status_done db actor pk p design).2 = db ∨
    ∃ img, (change_status_done db actor pk p design).2 =
      db.map (fun a => if a.id == pk then
        { a with design_image := some img, status := Status.done }
      else a) := by
  cases hA : is_admin actor with
  | false => left; simp [change_status_done, hA]
  | true =>
    cases hf : db.find? (fun a => a.id == pk) with
    | none => left; simp [change_status_done, hA, hf]
    | some app =>
      cases p with
      | false => left; simp [change_status_done, hA, hf]
      | true =>
        cases hc : clean_design_image design with
        | error e => left; simp [change_status_done, hA, hf, hc]
        | ok img =>
          right
          exact ⟨img, by simp [change_status_done, hA, hf, hc]⟩

/-- Helper: the detail view never writes. -/
theorem detail_db_shape (db : List App) (actor : UserRec) (pk : Nat) :
    (application_detail db actor pk).2 = db := by
  cases hf : db.find? (fun a => a.id == pk) with
  | none => simp [application_detail, hf]
  | some app =>
    by_cases hb : (actor.id == app.userId || is_admin actor) = true
    · simp [application_detail, hf, hb]
    · have hb2 := Bool.eq_false_iff.mpr hb
      simp [application_detail, hf, hb2]

/-- Counterexample to C1: an Application in status new, completed by an
administrator with a valid design image, jumps straight to done — a
transition that is neither new to in_progress nor in_progress to done,
because `change_status_done` never checks the current status. -/
theorem claim_C1_counterexample :
    wAppNew.status = Status.new ∧
    (change_status_done [wAppNew] wAdmin 1 true (some wPng)).2 =
      [{ wAppNew with design_image := some wPng, status := Status.done }] ∧
    ¬ claimedStep Status.new Status.done ∧
    Status.new ≠ Status.done := by
  refine ⟨rfl, rfl, ?_, by decide⟩
  rintro (⟨-, h⟩ | ⟨h, -⟩) <;> simp at h

/-- C1 as amended: over any database with unique pks, every request
moves each row's status only along `allowedStep`: it stays put, moves
new to in_progress, or jumps to done from any status — the done handler
does not check the current status, so new to done is reachable directly;
no step regresses, none leaves done except to done itself, and any row
the request adds starts at status new. -/
theorem claim_C1_amended (db : List App) (op : Op)
    (huniq : uniqueIds db) (hfresh : opFresh db op) :
    (∀ a ∈ db, ∀ b ∈ applyOp db op, b.id = a.id →
      allowedStep a.status b.status) ∧
    (∀ b ∈ applyOp db op, (∀ a ∈ db, a.id ≠ b.id) →
      b.status = Status.new) := by
  cases op with
  | createOp actor p inp nid t =>
    simp only [applyOp]
    rcases create_db_shape db actor p inp nid t with hsh | ⟨d, hsh⟩
    · rw [hsh]
      exact ⟨step_of_same db huniq, new_of_no_id db⟩
    · rw [hsh]
      constructor
      · intro a ha b hb hid
        rcases List.mem_append.mp hb with h | h
        · exact step_of_same db huniq a ha b h hid
        · rw [List.eq_of_mem_singleton h] at hid
          exact absurd hid.symm (hfresh a ha)
      · intro b hb hno
        rcases List.mem_append.mp hb with h | h
        · exact absurd rfl (hno b h)
        · rw [List.eq_of_mem_singleton h]
          rfl
  | editOp actor pk p inp =>
    simp only [applyOp]
    rcases edit_db_shape db actor pk p inp with hsh | ⟨d, hsh⟩
    · rw [hsh]
      exact ⟨step_of_same db huniq, new_of_no_id db⟩
    · rw [hsh]
      refine ⟨step_of_map db huniq _ (upd_if_id pk _ (fun a => rfl)) ?_,
              no_new_of_map db _ (upd_if_id pk _ (fun a => rfl))⟩
      intro a _
      by_cases hpk : (a.id == pk) = true
      · show allowedStep a.status
          (if (a.id == pk) = true then applyAppForm a d else a).status
        rw [if_pos hpk]
        exact Or.inl rfl
      · show allowedStep a.status
          (if (a.id == pk) = true then applyAppForm a d else a).status
        rw [if_neg hpk]
        exact Or.inl rfl
  | deleteOp actor pk p =>
    simp only [applyOp]
    rcases delete_db_shape db actor pk p with hsh | hsh <;> rw [hsh]
    · exact ⟨step_of_same db huniq, new_of_no_id db⟩
    · constructor
      · intro a ha b hb hid
        exact step_of_same db huniq a ha b (List.mem_of_mem_filter hb) hid
      · intro b hb hno
        exact new_of_no_id db b (List.mem_of_mem_filter hb) hno
  | inProgressOp actor pk p c =>
    simp only [applyOp]
    rcases inprog_db_shape db actor pk p c with hsh | ⟨app, v, hfind, hnew, hsh⟩
    · rw [hsh]
      exact ⟨step_of_same db huniq, new_of_no_id db⟩
    · rw [hsh]
      refine ⟨step_of_map db huniq _ (upd_if_id pk _ (fun a => rfl)) ?_,
              no_new_of_map db _ (upd_if_id pk _ (fun a => rfl))⟩
      intro a ha
      by_cases hpk : (a.id == pk) = true
      · show allowedStep a.status
          (if (a.id == pk) = true then
            { a with admin_comment := some v, status := Status.in_progress }
          else a).status
        rw [if_pos hpk]
        have happ : app ∈ db := List.mem_of_find?_eq_some hfind
        have hapk := @List.find?_some App (fun x : App => x.id == pk) app db hfind
        have haapp : a = app := by
          apply uniqueIds_eq_of_id huniq ha happ
          rw [beq_iff_eq] at hpk
          simp only [beq_iff_eq] at hapk
          rw [hpk, hapk]
        exact Or.inr (Or.inl ⟨by rw [haapp]; exact hnew, rfl⟩)
      · show allowedStep a.status
          (if (a.id == pk) = true then
            { a with admin_comment := some v, status := Status.in_progress }
          else a).status
        rw [if_neg hpk]
        exact Or.inl rfl
  | doneOp actor pk p design =>
    simp only [applyOp]
    rcases done_db_shape db actor pk p design with hsh | ⟨img, hsh⟩
    · rw [hsh]
      exact ⟨step_of_same db huniq, new_of_no_id db⟩
    · rw [hsh]
      refine ⟨step_of_map db huniq _ (upd_if_id pk _ (fun a => rfl)) ?_,
              no_new_of_map db _ (upd_if_id pk _ (fun a => rfl))⟩
      intro a _
      by_cases hpk : (a.id == pk) = true
      · show allowedStep a.status
          (if (a.id == pk) = true then
            { a with design_image := some img, status := Status.done }
          else a).status
        rw [if_pos hpk]
        exact Or.inr (Or.inr rfl)
      · show allowedStep a.status
          (if (a.id == pk) = true then
            { a with design_image := some img, status := Status.done }
          else a).status
        rw [if_neg hpk]
        exact Or.inl rfl
  | detailOp actor pk =>
    simp only [applyOp]
    rw [detail_db_shape db actor pk]
    exact ⟨step_of_same db huniq, new_of_no_id db⟩

/-- Witness for the amended C1: completing the concrete new application
is an allowed step of the permissive relation. -/
theorem claim_C1_amended_witness :
    allowedStep wAppNew.status
      ({ wAppNew with design_image := some wPng, status := Status.done }).status :=
  (claim_C1_amended [wAppNew] (Op.doneOp wAdmin 1 true (some wPng))
    (by simp [uniqueIds]) trivial).1 wAppNew (by decide)
    { wAppNew with design_image := some wPng, status := Status.done }
    (by decide) (by decide)

end Studio
